import Mathlib

/-!
Verification of the fetchers core (scheme registry, GitHub input scheme, two-tier
cached fetch pipeline) against its natural-language specification.  The definitions
below are a shallow embedding of `src/libstore/fetchers/fetchers.cc`,
`src/libstore/fetchers/github.cc` and `src/libstore/fetchers/cache.hh`.
External collaborators (URL parsing, hash primitives, the downloader, the object
store, the cache backing store) are modelled as oracles supplied through an
environment record, and every side effect of one fetch is recorded in an explicit
event trace so that theorems can speak about which requests and cache writes occur.
-/

set_option maxRecDepth 4000

/-- Decidable equality of `Except` values, given decidable equality of both
components (used to evaluate the embedded fallible operations on concrete
inputs). -/
instance {ε α : Type} [DecidableEq ε] [DecidableEq α] : DecidableEq (Except ε α)
  | .error e, .error f =>
    if h : e = f then .isTrue (by rw [h]) else .isFalse (by intro hc; cases hc; exact h rfl)
  | .error _, .ok _ => .isFalse (by intro hc; cases hc)
  | .ok _, .error _ => .isFalse (by intro hc; cases hc)
  | .ok a, .ok b =>
    if h : a = b then .isTrue (by rw [h]) else .isFalse (by intro hc; cases hc; exact h rfl)

namespace Fetchers

/-- Attribute values: a tagged value that is either a string or a non-negative
integer (`nix::fetchers::Attr` restricted to the variants the source uses). -/
inductive AttrValue
  | str (s : String)
  | int (n : Nat)
deriving DecidableEq

/-- `nix::fetchers::Attrs` is a `std::map<std::string, Attr>`; we represent it as a
key-sorted association list, kept canonical by `emplaceAttr`. -/
abbrev Attrs := List (String × AttrValue)

/-- Lexicographic order on character lists, by code point. -/
def charListLt : List Char → List Char → Bool
  | [], [] => false
  | [], _ :: _ => true
  | _ :: _, [] => false
  | a :: as, b :: bs => if a.val < b.val then true else if a.val = b.val then charListLt as bs else false

/-- The strict order `std::less<std::string>` used by `std::map`: lexicographic
comparison. -/
def strLt (a b : String) : Bool := charListLt a.data b.data

/-- `std::map::emplace`: insert in key order, keeping the existing binding when the
key is already present. -/
def emplaceAttr : Attrs → String → AttrValue → Attrs
  | [], k, v => [(k, v)]
  | (k', v') :: rest, k, v =>
    if strLt k k' then (k, v) :: (k', v') :: rest
    else if k = k' then (k', v') :: rest
    else (k', v') :: emplaceAttr rest k v

/-- Key lookup in an attribute map (`std::map::find`). -/
def lookupAttr : Attrs → String → Option AttrValue
  | [], _ => none
  | (k', v) :: rest, k => if k = k' then some v else lookupAttr rest k

/-- Error kinds raised by the embedded code.  `assertFail` models a failed C
`assert`; `nullDeref` marks the undefined behaviour of dereferencing the null
`inputSchemes` pointer; the remaining constructors mirror the error taxonomy of
the spec (`BadURL`, `MissingAttr`, `WrongAttrType`, `UnsupportedAttr`,
`UnsupportedInput`, bad hash strings, NAR hash mismatch). -/
inductive Err
  | badURL (msg : String)
  | missingAttr (name : String)
  | wrongAttrType (name : String)
  | unsupportedAttr (name : String)
  | unsupportedInput
  | badHash (s : String)
  | hashMismatch
  | assertFail (msg : String)
  | nullDeref
deriving DecidableEq

/-- Modelled from the spec: `get_str(key) → string | fail` with failure kinds
`MissingAttr` / `WrongAttrType` (the helper lives in the repository's
`attrs.cc`, which is not under `src/`). -/
def getStrAttr (attrs : Attrs) (k : String) : Except Err String :=
  match lookupAttr attrs k with
  | some (.str s) => .ok s
  | some (.int _) => .error (.wrongAttrType k)
  | none => .error (.missingAttr k)

/-- Modelled from the spec: `get_int(key) → u64 | fail` with failure kinds
`MissingAttr` / `WrongAttrType` (from the repository's `attrs.cc`, not under
`src/`). -/
def getIntAttr (attrs : Attrs) (k : String) : Except Err Nat :=
  match lookupAttr attrs k with
  | some (.int n) => .ok n
  | some (.str _) => .error (.wrongAttrType k)
  | none => .error (.missingAttr k)

/-- Modelled from the spec: `maybe_get_str(key) → option<string>` (from the
repository's `attrs.cc`, not under `src/`). -/
def maybeGetStrAttr (attrs : Attrs) (k : String) : Option String :=
  match lookupAttr attrs k with
  | some (.str s) => some s
  | _ => none

/-- Modelled from the spec: the external `Hash` type is "an opaque typed digest
(algorithm tag + raw bytes)".  A SHA-1 digest is represented by its lowercase
base-16 form, so equality of `Hash` values coincides with equality of algorithm
and bytes. -/
structure Hash where
  alg : String
  hex : String
deriving DecidableEq

/-- Hexadecimal digit test used by the 40-hex git revision format. -/
def isHexDigitChar (c : Char) : Bool :=
  c.isDigit || ('a' ≤ c && c ≤ 'f') || ('A' ≤ c && c ≤ 'F')

/-- A valid git-style SHA-1 rendering: exactly 40 hexadecimal characters. -/
def sha1Valid (s : String) : Bool :=
  s.data.length = 40 && s.data.all isHexDigitChar

/-- Modelled from the spec: the external `Hash(s, htSHA1)` constructor, parsing a
git-style 40-hex SHA-1 rendering into a typed digest (case-normalised, since the
digest is raw bytes).  An invalid string raises a bad-hash error. -/
def parseSHA1 (s : String) : Except Err Hash :=
  if sha1Valid s then .ok ⟨"sha1", ⟨s.data.map Char.toLower⟩⟩ else .error (.badHash s)

/-- `Hash::gitRev()`: the 40-char base-16 rendering of a SHA-1 digest. -/
def Hash.gitRev (h : Hash) : String := h.hex

/-- Modelled from the spec: the SRI rendering `<alg>-<base64>` of the external
`Hash` type; the base64 detail is abstracted by the (equally injective) base-16
digest. -/
def hashToSRI (h : Hash) : String := h.alg ++ "-" ++ h.hex

/-- Split a character list at every occurrence of the separator (keeping empty
pieces), structurally. -/
def splitChars (sep : Char) : List Char → List Char → List (List Char)
  | acc, [] => [acc.reverse]
  | acc, c :: cs => if c = sep then acc.reverse :: splitChars sep [] cs else splitChars sep (c :: acc) cs

/-- Modelled from the spec: the external one-argument `Hash(s)` constructor used
by the registry when attaching `narHash` ("FIXME: require SRI hash" in the
source); it accepts the `<alg>-<digest>` form produced by `hashToSRI`. -/
def parseHashAny (s : String) : Except Err Hash :=
  match splitChars '-' [] s.data with
  | [alg, digest] =>
    if alg ≠ [] ∧ digest ≠ [] then .ok ⟨⟨alg⟩, ⟨digest⟩⟩ else .error (.badHash s)
  | _ => .error (.badHash s)

/-- `ownerRegex` from `github.cc`: `[a-zA-Z][a-zA-Z0-9_-]*`. -/
def ownerRegexMatch (s : String) : Bool :=
  match s.data with
  | [] => false
  | c :: cs => c.isAlpha && cs.all (fun d => d.isAlpha || d.isDigit || d == '_' || d == '-')

/-- `repoRegex` from `github.cc`: the same expression `[a-zA-Z][a-zA-Z0-9_-]*`. -/
def repoRegexMatch (s : String) : Bool := ownerRegexMatch s

/-- Modelled from the spec: the 40-hex-char git-revision regular expression
(`revRegex`, declared in the repository's `regex.hh`, which is not under
`src/`). -/
def revRegexMatch (s : String) : Bool := sha1Valid s

/-- Modelled from the spec: the branch/tag-name regular expression (`refRegex`,
declared in the repository's `regex.hh`, not under `src/`): a non-empty word of
alphanumerics and `_ . - /`. -/
def refRegexMatch (s : String) : Bool :=
  !s.data.isEmpty && s.data.all (fun c => c.isAlphanum || c == '_' || c == '.' || c == '-' || c == '/')

/-- Modelled from the spec: the external `ParsedURL` produced by `parseURL`
(`parse.hh` is not under `src/`): a scheme, the raw path text, and the query as
a list of name/value pairs in order of appearance. -/
structure ParsedURL where
  scheme : String
  path : String
  query : List (String × String)
deriving DecidableEq

/-- Modelled from the spec: the external `tokenizeString<vector<string>>(s, "/")`
utility, splitting at the separator and discarding empty tokens. -/
def tokenizeString (s : String) : List String :=
  ((splitChars '/' [] s.data).map (fun l => String.mk l)).filter (fun t => t ≠ "")

/-- `GitHubInput` from `github.cc`: owner, repo, optional ref, optional rev, plus
the `narHash` field inherited from the abstract `Input`. -/
structure GitHubInput where
  owner : String
  repo : String
  ref : Option String
  rev : Option Hash
  narHash : Option Hash
deriving DecidableEq

/-- `GitHubInput::type()`. -/
def GitHubInput.type (_ : GitHubInput) : String := "github"

/-- `GitHubInput::operator==`: kind-equal and field-equal on owner, repo, rev and
ref (the `narHash` field is not compared). -/
def GitHubInput.inputEq (a b : GitHubInput) : Bool :=
  a.owner == b.owner && a.repo == b.repo && a.rev == b.rev && a.ref == b.ref

/-- `GitHubInput::isImmutable()`: true iff a revision is set. -/
def GitHubInput.isImmutable (i : GitHubInput) : Bool := i.rev.isSome

/-- `GitHubInput::to_string()`: the canonical URL form.  The source asserts
`!(ref && rev)` before appending the optional third segment; a failed assertion
is modelled as an `assertFail` error. -/
def GitHubInput.to_string (i : GitHubInput) : Except Err String :=
  let s := "github:" ++ i.owner ++ "/" ++ i.repo
  if i.ref.isSome ∧ i.rev.isSome then .error (.assertFail "!(ref && rev)")
  else
    let s := match i.ref with | some r => s ++ "/" ++ r | none => s
    let s := match i.rev with | some h => s ++ "/" ++ h.hex | none => s
    .ok s

/-- `GitHubInput::toAttrsInternal()`: owner, repo, optional ref, optional rev
(as `gitRev()`), emplaced into a `std::map`. -/
def GitHubInput.toAttrsInternal (i : GitHubInput) : Attrs :=
  let a := emplaceAttr [] "owner" (.str i.owner)
  let a := emplaceAttr a "repo" (.str i.repo)
  let a := match i.ref with | some r => emplaceAttr a "ref" (.str r) | none => a
  match i.rev with | some h => emplaceAttr a "rev" (.str h.gitRev) | none => a

/-- `Input::toAttrs()` from `fetchers.cc`: wraps `toAttrsInternal`, emplacing
`narHash` (SRI-rendered) when present and the synthetic `type` tag. -/
def GitHubInput.toAttrs (i : GitHubInput) : Attrs :=
  let a := i.toAttrsInternal
  let a := match i.narHash with | some h => emplaceAttr a "narHash" (.str (hashToSRI h)) | none => a
  emplaceAttr a "type" (.str i.type)

/-- `GitHubInput::applyOverrides`: return the receiver unchanged when no override
is supplied, otherwise a copy with the supplied fields overwritten (the other
fields, in particular a present `ref`, are kept). -/
def GitHubInput.applyOverrides (i : GitHubInput) (ref : Option String) (rev : Option Hash) :
    GitHubInput :=
  if ref = none ∧ rev = none then i
  else
    { i with
      ref := match ref with | some r => some r | none => i.ref
      rev := match rev with | some r => some r | none => i.rev }

/-- One step of the query-parameter loop of `GitHubInputScheme::inputFromURL`:
a `rev` parameter when a rev is already set (from the path or an earlier
parameter) is "multiple commit hashes", otherwise its value is parsed as a
SHA-1; a `ref` value failing `refRegex` is "invalid branch/tag name", a second
`ref` is "multiple branch/tag names"; other parameter names are ignored. -/
def queryStep (name value : String) (rev : Option Hash) (ref : Option String) :
    Except Err (Option Hash × Option String) :=
  if name = "rev" then
    match rev with
    | some _ => .error (.badURL "GitHub URL contains multiple commit hashes")
    | none =>
      match parseSHA1 value with
      | .error e => .error e
      | .ok h => .ok (some h, ref)
  else if name = "ref" then
    if refRegexMatch value = false then
      .error (.badURL "GitHub URL contains an invalid branch/tag name")
    else
      match ref with
      | some _ => .error (.badURL "GitHub URL contains multiple branch/tag names")
      | none => .ok (rev, some value)
  else .ok (rev, ref)

/-- The query-parameter loop of `GitHubInputScheme::inputFromURL`, processed in
order of appearance: each parameter either raises an error (`queryStep`) or
updates the pending rev/ref state. -/
def processQuery : List (String × String) → Option Hash → Option String →
    Except Err (Option Hash × Option String)
  | [], rev, ref => .ok (rev, ref)
  | (name, value) :: rest, rev, ref =>
    match queryStep name value rev ref with
    | .error e => .error e
    | .ok (rev2, ref2) => processQuery rest rev2 ref2

/-- The third-path-segment classification of `GitHubInputScheme::inputFromURL`:
two path segments carry no rev/ref; a third segment is a rev iff it matches
`revRegex`, else a ref iff it matches `refRegex`, else `BadURL`; any other
segment count is `BadURL`. -/
def classifyPath (path : List String) : Except Err (Option Hash × Option String) :=
  if path.length = 2 then .ok (none, none)
  else if path.length = 3 then
    if revRegexMatch (path.getD 2 "") then
      match parseSHA1 (path.getD 2 "") with
      | .error e => .error e
      | .ok h => .ok (some h, none)
    else if refRegexMatch (path.getD 2 "") then .ok (none, some (path.getD 2 ""))
    else .error (.badURL "in GitHub URL, the third path segment is not a commit hash or branch/tag name")
  else .error (.badURL "GitHub URL is invalid")

/-- `GitHubInputScheme::inputFromURL` from `github.cc`: decline (return `none`)
unless the scheme is `github`; tokenize the path; a third segment is a rev iff
it matches `revRegex`, else a ref iff it matches `refRegex`, else `BadURL`;
then process the query parameters and reject when both a ref and a rev ended up
set.  Owner and repo are taken verbatim from the first two path segments. -/
def GitHubInputScheme.inputFromURL (url : ParsedURL) : Except Err (Option GitHubInput) :=
  if url.scheme ≠ "github" then .ok none else
  let path := tokenizeString url.path
  match classifyPath path with
  | .error e => .error e
  | .ok (rev0, ref0) =>
    match processQuery url.query rev0 ref0 with
    | .error e => .error e
    | .ok (rev, ref) =>
      if ref.isSome ∧ rev.isSome then
        .error (.badURL "GitHub URL contains both a commit hash and a branch/tag name")
      else
        .ok (some { owner := path.getD 0 "", repo := path.getD 1 "",
                    ref := ref, rev := rev, narHash := none })

/-- The attribute names `GitHubInputScheme::inputFromAttrs` accepts. -/
def allowedGitHubAttr (name : String) : Bool :=
  name == "type" || name == "owner" || name == "repo" || name == "ref" || name == "rev"

/-- `GitHubInputScheme::inputFromAttrs` from `github.cc`: decline unless
`attrs["type"] = "github"`; reject the first attribute (in map order) outside
{type, owner, repo, ref, rev}; require `owner` and `repo` strings; take the
optional `ref` and parse the optional `rev` as a SHA-1. -/
def GitHubInputScheme.inputFromAttrs (attrs : Attrs) : Except Err (Option GitHubInput) :=
  if maybeGetStrAttr attrs "type" ≠ some "github" then .ok none else
  match attrs.find? (fun p => !allowedGitHubAttr p.1) with
  | some p => .error (.unsupportedAttr p.1)
  | none =>
    match getStrAttr attrs "owner" with
    | .error e => .error e
    | .ok owner =>
      match getStrAttr attrs "repo" with
      | .error e => .error e
      | .ok repo =>
        match maybeGetStrAttr attrs "rev" with
        | some s =>
          match parseSHA1 s with
          | .error e => .error e
          | .ok h =>
            .ok (some { owner, repo, ref := maybeGetStrAttr attrs "ref",
                        rev := some h, narHash := none })
        | none =>
          .ok (some { owner, repo, ref := maybeGetStrAttr attrs "ref",
                      rev := none, narHash := none })

/-- The registered scheme kinds; the sampled source registers exactly the GitHub
scheme (`registerInputScheme(make_unique<GitHubInputScheme>())`). -/
inductive Scheme
  | github
deriving DecidableEq

/-- Dispatch of `InputScheme::inputFromURL` over the scheme kind. -/
def Scheme.fromURL : Scheme → ParsedURL → Except Err (Option GitHubInput)
  | .github, url => GitHubInputScheme.inputFromURL url

/-- Dispatch of `InputScheme::inputFromAttrs` over the scheme kind. -/
def Scheme.fromAttrs : Scheme → Attrs → Except Err (Option GitHubInput)
  | .github, attrs => GitHubInputScheme.inputFromAttrs attrs

/-- The registry state: `inputSchemes` is a
`std::unique_ptr<std::vector<std::unique_ptr<InputScheme>>>` initialised to
`nullptr`; `none` models the null pointer. -/
abbrev Registry := Option (List Scheme)

/-- `registerInputScheme` from `fetchers.cc`: allocate the vector when the
pointer is still null, then push the scheme at the back. -/
def registerInputScheme (st : Registry) (s : Scheme) : Registry :=
  some (st.getD [] ++ [s])

/-- The loop body of `inputFromURL` in `fetchers.cc`: try each scheme in
registration order, returning the first non-null result; raise the
unsupported-input error when every scheme declines. -/
def inputFromURLList : List Scheme → ParsedURL → Except Err GitHubInput
  | [], _ => .error .unsupportedInput
  | s :: rest, url =>
    match s.fromURL url with
    | .error e => .error e
    | .ok (some i) => .ok i
    | .ok none => inputFromURLList rest url

/-- `inputFromURL` from `fetchers.cc`.  The source iterates `*inputSchemes`
without a null check, so a call before any registration dereferences the null
pointer: that undefined behaviour is marked by the distinguished `nullDeref`
outcome rather than the unsupported-input error. -/
def inputFromURL (st : Registry) (url : ParsedURL) : Except Err GitHubInput :=
  match st with
  | none => .error .nullDeref
  | some l => inputFromURLList l url

/-- The loop body of `inputFromAttrs` in `fetchers.cc` (without the `narHash`
attachment). -/
def inputFromAttrsList : List Scheme → Attrs → Except Err GitHubInput
  | [], _ => .error .unsupportedInput
  | s :: rest, attrs =>
    match s.fromAttrs attrs with
    | .error e => .error e
    | .ok (some i) => .ok i
    | .ok none => inputFromAttrsList rest attrs

/-- `inputFromAttrs` from `fetchers.cc`: dispatch over the registered schemes
(null pointer dereference marked as in `inputFromURL`), then, on success, if the
attrs carry a `narHash`, parse it and attach it to the returned input. -/
def inputFromAttrs (st : Registry) (attrs : Attrs) : Except Err GitHubInput :=
  match st with
  | none => .error .nullDeref
  | some l =>
    match inputFromAttrsList l attrs with
    | .error e => .error e
    | .ok i =>
      match maybeGetStrAttr attrs "narHash" with
      | some nh =>
        match parseHashAny nh with
        | .error e => .error e
        | .ok h => .ok { i with narHash := some h }
      | none => .ok i

/-- `TreeInfo`: an optional NAR hash and an optional last-modified time. -/
structure TreeInfo where
  narHash : Option Hash
  lastModified : Option Nat
deriving DecidableEq

/-- `Tree`: the materialised result of a fetch (store paths modelled as
strings). -/
structure Tree where
  actualPath : String
  storePath : String
  info : TreeInfo
deriving DecidableEq

/-- `CachedDownloadRequest` from the external downloader interface (spec §6):
url, TTL, optional unpacking, optional top-level name, last-modified request. -/
structure CachedDownloadRequest where
  url : String
  ttl : Nat
  unpack : Bool
  name : Option String
  getLastModified : Bool
deriving DecidableEq

/-- The external downloader's result (spec §6). -/
structure DownloadResult where
  path : String
  storePath : String
  lastModified : Option Nat
deriving DecidableEq

/-- One observable side effect of a fetch: a cache lookup, a download request, or
a cache insertion (`Cache::add` with its immutable flag). -/
inductive Event
  | cacheLookup (inAttrs : Attrs)
  | download (req : CachedDownloadRequest)
  | cacheAdd (inAttrs infoAttrs : Attrs) (storePath : String) (immutable : Bool)
deriving DecidableEq

/-- The oracle environment for one fetch: the cache contents, the downloader, the
`sha` field parsed from a downloaded HEAD-resolution response, the object-store
operations, and the configuration (`tarballTtl`, `githubAccessToken`).  All are
external collaborators per spec §1/§6. -/
structure FetchEnv where
  cache : Attrs → Option (Attrs × String)
  downloadCached : CachedDownloadRequest → DownloadResult
  shaOf : String → String
  toRealPath : String → String
  queryPathNarHash : String → Hash
  parseStorePath : String → String
  tarballTtl : Nat
  githubAccessToken : String

/-- The mutable-key attrs of `GitHubInput::fetchTreeInternal`:
`{type: "github", owner, repo, ref}` (a `std::map`, hence key-sorted). -/
def mkMutableAttrs (owner repo ref : String) : Attrs :=
  emplaceAttr (emplaceAttr (emplaceAttr (emplaceAttr []
    "type" (.str "github")) "owner" (.str owner)) "repo" (.str repo)) "ref" (.str ref)

/-- The immutable-key attrs of `GitHubInput::fetchTreeInternal`:
`{type: "git-tarball", rev}`. -/
def mkImmutableAttrs (r : Hash) : Attrs :=
  emplaceAttr (emplaceAttr [] "type" (.str "git-tarball")) "rev" (.str r.gitRev)

/-- The `infoAttrs` recorded by `GitHubInput::fetchTreeInternal`:
`{rev, lastModified}`. -/
def mkInfoAttrs (r : Hash) (lastModified : Nat) : Attrs :=
  emplaceAttr (emplaceAttr [] "rev" (.str r.gitRev)) "lastModified" (.int lastModified)

/-- The HEAD-resolution request of `GitHubInput::fetchTreeInternal`: the
`repos/<owner>/<repo>/commits/<ref>` API URL.  Its TTL in the source is the
leftover conditional `rev ? 1000000000 : settings.tarballTtl`, evaluated at a
point where the local `rev` is necessarily unset, hence always
`settings.tarballTtl`. -/
def headRequest (owner repo ref : String) (env : FetchEnv) : CachedDownloadRequest :=
  { url := "https://api.github.com/repos/" ++ owner ++ "/" ++ repo ++ "/commits/" ++ ref
    ttl := env.tarballTtl
    unpack := false
    name := none
    getLastModified := false }

/-- The tarball request of `GitHubInput::fetchTreeInternal`: the
`repos/<owner>/<repo>/tarball/<rev>` API URL (with the configured access token
appended when non-empty), unpacked under the name "source", with TTL
`1000000000` and last-modified metadata requested. -/
def tarballRequest (owner repo : String) (r : Hash) (env : FetchEnv) : CachedDownloadRequest :=
  let url := "https://api.github.com/repos/" ++ owner ++ "/" ++ repo ++ "/tarball/" ++ r.hex
  let url := if env.githubAccessToken ≠ "" then url ++ "?access_token=" ++ env.githubAccessToken else url
  { url := url
    ttl := 1000000000
    unpack := true
    name := some "source"
    getLastModified := true }

/-- The tail of `GitHubInput::fetchTreeInternal` from the point where the
revision is known (source line "auto input = make_shared<GitHubInput>(*this)"
onward): build the canonical input with `ref` cleared and `rev` set, look up the
immutable key, and on a miss download the tarball, assert its last-modified
metadata, and insert the cache records — under the mutable key with
`immutable=false` only when the receiver carried no rev, and always under the
immutable key with `immutable=true`. -/
def GitHubInput.fetchFromRev (self : GitHubInput) (env : FetchEnv) (mutableAttrs : Attrs)
    (r : Hash) : List Event × Except Err (Tree × GitHubInput) :=
  let input : GitHubInput := { self with ref := none, rev := some r }
  let immutableAttrs := mkImmutableAttrs r
  match env.cache immutableAttrs with
  | some res =>
    ([.cacheLookup immutableAttrs],
      match getIntAttr res.1 "lastModified" with
      | .error e => .error e
      | .ok lm => .ok (⟨env.toRealPath res.2, res.2, ⟨none, some lm⟩⟩, input))
  | none =>
    let req := tarballRequest self.owner self.repo r env
    let dres := env.downloadCached req
    match dres.lastModified with
    | none =>
      ([.cacheLookup immutableAttrs, .download req],
        .error (.assertFail "dresult.lastModified"))
    | some lm =>
      let tree : Tree := ⟨dres.path, env.parseStorePath dres.storePath, ⟨none, some lm⟩⟩
      let infoAttrs := mkInfoAttrs r lm
      ([.cacheLookup immutableAttrs, .download req]
        ++ (if self.rev = none then [.cacheAdd mutableAttrs infoAttrs tree.storePath false] else [])
        ++ [.cacheAdd immutableAttrs infoAttrs tree.storePath true],
        .ok (tree, input))

/-- `GitHubInput::fetchTreeInternal` from `github.cc`: resolve the effective ref
(default "master"), build the mutable-key attrs; when no rev is set, try the
mutable-key cache (on a hit, return the cached tree with a canonical input whose
`ref` is cleared and whose `rev` comes from the cached `infoAttrs`), otherwise
resolve HEAD through the forge API; then continue from the resolved revision
(`fetchFromRev`). -/
def GitHubInput.fetchTreeInternal (self : GitHubInput) (env : FetchEnv) :
    List Event × Except Err (Tree × GitHubInput) :=
  let ref := self.ref.getD "master"
  let mutableAttrs := mkMutableAttrs self.owner self.repo ref
  match self.rev with
  | some r => self.fetchFromRev env mutableAttrs r
  | none =>
    match env.cache mutableAttrs with
    | some res =>
      ([.cacheLookup mutableAttrs],
        match getStrAttr res.1 "rev" with
        | .error e => .error e
        | .ok revStr =>
          match parseSHA1 revStr with
          | .error e => .error e
          | .ok r =>
            match getIntAttr res.1 "lastModified" with
            | .error e => .error e
            | .ok lm =>
              .ok (⟨env.toRealPath res.2, res.2, ⟨none, some lm⟩⟩,
                   { self with ref := none, rev := some r }))
    | none =>
      let req := headRequest self.owner self.repo ref env
      let dres := env.downloadCached req
      match parseSHA1 (env.shaOf dres.path) with
      | .error e => ([.cacheLookup mutableAttrs, .download req], .error e)
      | .ok r =>
        let (tl, res) := self.fetchFromRev env mutableAttrs r
        (.cacheLookup mutableAttrs :: .download req :: tl, res)

/-- The public `Input::fetchTree` from `fetchers.cc`: run `fetchTreeInternal`,
default `actualPath` from the store, populate a missing `tree.info.narHash` from
`queryPathInfo`, assert the canonical input's `narHash` (when present) equals the
tree's, and raise the NAR-hash-mismatch error when the calling input's `narHash`
differs from the canonical input's.  The event trace of the internal call is
returned unchanged: side effects already performed are not rolled back on
failure. -/
def GitHubInput.fetchTree (self : GitHubInput) (env : FetchEnv) :
    List Event × Except Err (Tree × GitHubInput) :=
  match self.fetchTreeInternal env with
  | (evs, .error e) => (evs, .error e)
  | (evs, .ok (tree, input)) =>
    let tree := if tree.actualPath = "" then { tree with actualPath := env.toRealPath tree.storePath } else tree
    let tree :=
      if tree.info.narHash = none then
        { tree with info := { tree.info with narHash := some (env.queryPathNarHash tree.storePath) } }
      else tree
    if input.narHash.isSome ∧ input.narHash ≠ tree.info.narHash then
      (evs, .error (.assertFail "input->narHash == tree.info.narHash"))
    else if self.narHash.isSome ∧ self.narHash ≠ input.narHash then
      (evs, .error .hashMismatch)
    else (evs, .ok (tree, input))

/-- A concrete 40-hex SHA-1 rendering used by the concrete evaluations below. -/
def sampleHex : String := "aaaaaaaaaaaaaaaaaaaaaaaaaaaaaaaaaaaaaaaa"

/-- The concrete SHA-1 digest with rendering `sampleHex`. -/
def sampleRev : Hash := ⟨"sha1", sampleHex⟩

/-- A concrete oracle environment: empty cache, a downloader that returns a fixed
result, HEAD resolution answering `sampleHex`, and a store whose NAR hash for
every path is `sha256-actual`. -/
def sampleEnv : FetchEnv :=
  { cache := fun _ => none
    downloadCached := fun _ => ⟨"/dl/path", "storepath1", some 5⟩
    shaOf := fun _ => sampleHex
    toRealPath := fun s => "/real/" ++ s
    queryPathNarHash := fun _ => ⟨"sha256", "actual"⟩
    parseStorePath := fun s => s
    tarballTtl := 3600
    githubAccessToken := "" }

/-- A concrete rev-pinned input without a `narHash` expectation. -/
def sampleInput : GitHubInput :=
  { owner := "alice", repo := "proj", ref := none, rev := some sampleRev, narHash := none }

/-- The canonical input returned for `sampleInput` by the pipeline. -/
def sampleCanon : GitHubInput :=
  { owner := "alice", repo := "proj", ref := none, rev := some sampleRev, narHash := none }

/-- The tree returned for `sampleInput` under `sampleEnv` after the public
wrapper populated the NAR hash. -/
def sampleTree : Tree :=
  ⟨"/dl/path", "storepath1", ⟨some ⟨"sha256", "actual"⟩, some 5⟩⟩

/-- The event trace of fetching `sampleInput` under `sampleEnv`. -/
def sampleEvs : List Event :=
  [.cacheLookup (mkImmutableAttrs sampleRev),
   .download (tarballRequest "alice" "proj" sampleRev sampleEnv),
   .cacheAdd (mkImmutableAttrs sampleRev) (mkInfoAttrs sampleRev 5) "storepath1" true]

/-- A concrete branch-named input carrying a `narHash` expectation that disagrees
with the store's `sha256-actual`. -/
def mismatchInput : GitHubInput :=
  { owner := "alice", repo := "proj", ref := none, rev := none, narHash := some ⟨"sha256", "expected"⟩ }

/-- The event trace of fetching `mismatchInput` under `sampleEnv`: both cache
tiers miss, HEAD resolution runs, the tarball is downloaded and both cache
records are inserted before the wrapper's hash check runs. -/
def mismatchEvs : List Event :=
  [.cacheLookup (mkMutableAttrs "alice" "proj" "master"),
   .download (headRequest "alice" "proj" "master" sampleEnv),
   .cacheLookup (mkImmutableAttrs sampleRev),
   .download (tarballRequest "alice" "proj" sampleRev sampleEnv),
   .cacheAdd (mkMutableAttrs "alice" "proj" "master") (mkInfoAttrs sampleRev 5) "storepath1" false,
   .cacheAdd (mkImmutableAttrs sampleRev) (mkInfoAttrs sampleRev 5) "storepath1" true]

/-- Number of occurrences of the query-parameter name `k` in a query list. -/
def countKey (q : List (String × String)) (k : String) : Nat :=
  (q.filter (fun p => p.1 == k)).length

/-- 1 when the option is set, 0 otherwise. -/
def optCount {α : Type} : Option α → Nat
  | none => 0
  | some _ => 1

/-- All `rev` query-parameter values are valid 40-hex SHA-1 renderings (so the
only errors the query loop can raise for them are `BadURL`, not bad-hash). -/
def revValsValid (q : List (String × String)) : Bool :=
  q.all (fun p => p.1 != "rev" || sha1Valid p.2)

/-- All `ref` query-parameter values pass the branch/tag-name regular
expression. -/
def refValsValid (q : List (String × String)) : Bool :=
  q.all (fun p => p.1 != "ref" || refRegexMatch p.2)

/-- A concrete input carrying both a ref and a rev (constructible from attrs,
but rejected by `to_string`). -/
def bothRefRev : GitHubInput :=
  { owner := "alice", repo := "proj", ref := some "main", rev := some sampleRev,
    narHash := none }

/-- A concrete input carrying only a ref. -/
def refOnly : GitHubInput :=
  { owner := "a", repo := "b", ref := some "main", rev := none, narHash := none }

lemma fetchFromRev_ok_shape (self : GitHubInput) (env : FetchEnv) (ma : Attrs) (r : Hash)
    (t : Tree) (inp : GitHubInput)
    (h : (self.fetchFromRev env ma r).2 = .ok (t, inp)) :
    inp = { self with ref := none, rev := some r } ∧ t.info.narHash = none := by
  unfold GitHubInput.fetchFromRev at h
  cases hc : env.cache (mkImmutableAttrs r) with
  | some res =>
    simp only [hc] at h
    cases hg : getIntAttr res.1 "lastModified" with
    | error e => simp [hg] at h
    | ok lm =>
      simp only [hg] at h
      cases h
      exact ⟨rfl, rfl⟩
  | none =>
    simp only [hc] at h
    cases hl : (env.downloadCached (tarballRequest self.owner self.repo r env)).lastModified with
    | none => simp [hl] at h
    | some lm =>
      simp only [hl] at h
      cases h
      exact ⟨rfl, rfl⟩

lemma fetchTreeInternal_ok_shape (self : GitHubInput) (env : FetchEnv)
    (t : Tree) (inp : GitHubInput)
    (h : (self.fetchTreeInternal env).2 = .ok (t, inp)) :
    (∃ r, inp = { self with ref := none, rev := some r }) ∧ t.info.narHash = none := by
  unfold GitHubInput.fetchTreeInternal at h
  cases hr : self.rev with
  | some r =>
    simp only [hr] at h
    exact ⟨⟨r, (fetchFromRev_ok_shape _ _ _ _ _ _ h).1⟩, (fetchFromRev_ok_shape _ _ _ _ _ _ h).2⟩
  | none =>
    simp only [hr] at h
    cases hc : env.cache (mkMutableAttrs self.owner self.repo (self.ref.getD "master")) with
    | some res =>
      simp only [hc] at h
      cases hs : getStrAttr res.1 "rev" with
      | error e => simp [hs] at h
      | ok revStr =>
        simp only [hs] at h
        cases hp : parseSHA1 revStr with
        | error e => simp [hp] at h
        | ok r =>
          simp only [hp] at h
          cases hg : getIntAttr res.1 "lastModified" with
          | error e => simp [hg] at h
          | ok lm =>
            simp only [hg] at h
            cases h
            exact ⟨⟨r, rfl⟩, rfl⟩
    | none =>
      simp only [hc] at h
      cases hp : parseSHA1 (env.shaOf (env.downloadCached
          (headRequest self.owner self.repo (self.ref.getD "master") env)).path) with
      | error e => simp [hp] at h
      | ok r =>
        simp only [hp] at h
        exact ⟨⟨r, (fetchFromRev_ok_shape _ _ _ _ _ _ h).1⟩, (fetchFromRev_ok_shape _ _ _ _ _ _ h).2⟩

lemma fetchTree_ok_inv (self : GitHubInput) (env : FetchEnv)
    (t : Tree) (inp : GitHubInput)
    (h : (self.fetchTree env).2 = .ok (t, inp)) :
    ∃ t0, (self.fetchTreeInternal env).2 = .ok (t0, inp) := by
  unfold GitHubInput.fetchTree at h
  cases hi : self.fetchTreeInternal env with
  | mk evs0 res =>
    rw [hi] at h
    cases res with
    | error e => simp at h
    | ok p =>
      obtain ⟨t0, inp0⟩ := p
      simp only at h
      split at h <;> try split at h
      all_goals try split at h
      all_goals try split at h
      all_goals
        first
        | exact Except.noConfusion h
        | (have h2 : inp0 = inp :=
            congrArg (fun r => match r with | Except.ok p => p.2 | Except.error _ => inp0) h
           exact ⟨t0, by rw [h2]⟩)

/-- C4: for every successful call `fetch_tree(i)` returning `(tree, i')`, the
canonical input `i'` is immutable: its `rev` is set and its `ref` is cleared, on
every return path (both cache-hit paths and the download path). -/
theorem fetchTree_canonical_input_immutable (self : GitHubInput) (env : FetchEnv)
    (t : Tree) (inp : GitHubInput)
    (h : (self.fetchTree env).2 = .ok (t, inp)) :
    inp.isImmutable = true ∧ inp.ref = none ∧ inp.rev.isSome = true := by
  obtain ⟨t0, h0⟩ := fetchTree_ok_inv self env t inp h
  obtain ⟨⟨r, hinp⟩, -⟩ := fetchTreeInternal_ok_shape self env t0 inp h0
  subst hinp
  exact ⟨rfl, rfl, rfl⟩

/-- C4 witness: the theorem applied to the concrete successful fetch of
`sampleInput` under `sampleEnv`. -/
theorem fetchTree_canonical_input_immutable_witness :
    sampleCanon.isImmutable = true ∧ sampleCanon.ref = none ∧ sampleCanon.rev.isSome = true :=
  fetchTree_canonical_input_immutable sampleInput sampleEnv sampleTree sampleCanon
    (by decide)

/-- C3: the owner/repo regular expressions declared in `github.cc` are never
applied by `inputFromURL`: a URL whose owner segment fails
`[A-Za-z][A-Za-z0-9_-]*` (here `"1owner"`, and a repo segment `"re!po"`) is
accepted rather than rejected with `BadURL`. -/
theorem inputFromURL_owner_regex_unenforced :
    GitHubInputScheme.inputFromURL ⟨"github", "1owner/repo", []⟩ =
      .ok (some { owner := "1owner", repo := "repo", ref := none, rev := none, narHash := none }) ∧
    ownerRegexMatch "1owner" = false ∧
    GitHubInputScheme.inputFromURL ⟨"github", "alice/re!po", []⟩ =
      .ok (some { owner := "alice", repo := "re!po", ref := none, rev := none, narHash := none }) ∧
    repoRegexMatch "re!po" = false := by
  refine ⟨by decide, by decide, by decide, by decide⟩

/-- C5: the attribute round-trip fails for every github input carrying a
`narHash`: `toAttrs` emits a `narHash` attribute, which the scheme's
`inputFromAttrs` rejects as an unsupported GitHub input attribute — even though
the registry's own dispatch expects to strip and attach `narHash` itself.
Evaluated at a concrete input with `narHash` set. -/
theorem inputFromAttrs_narHash_roundtrip_fails :
    inputFromAttrs (registerInputScheme none .github)
      (GitHubInput.toAttrs
        { owner := "alice", repo := "proj", ref := none,
          rev := some sampleRev, narHash := some ⟨"sha256", "digest"⟩ }) =
      .error (.unsupportedAttr "narHash") := by
  decide

/-- C1 (amended): when `i.narHash` is set and disagrees with the fetched tree's
NAR hash, `fetch_tree` does fail — but through the internal-consistency
assertion rather than with a `HashMismatch` error, because the canonical input
produced by the github scheme inherits `i`'s `narHash` (so the dedicated
`HashMismatch` check, which compares `i.narHash` against the canonical input's
`narHash`, can never fire) — and the event trace, including any immutable-key
cache insertion already performed by `fetch_tree_internal`, is unchanged: the
cache record is not rolled back. -/
theorem fetchTree_hash_mismatch_asserts (self : GitHubInput) (env : FetchEnv)
    (h : Hash) (evs : List Event) (t : Tree) (inp : GitHubInput)
    (hn : self.narHash = some h)
    (hi : self.fetchTreeInternal env = (evs, .ok (t, inp)))
    (hq : env.queryPathNarHash t.storePath ≠ h) :
    self.fetchTree env = (evs, .error (.assertFail "input->narHash == tree.info.narHash")) := by
  obtain ⟨⟨r, hinp⟩, hnone⟩ := fetchTreeInternal_ok_shape self env t inp (by rw [hi])
  have hinpnar : inp.narHash = some h := by rw [hinp]; exact hn
  have hne : some h ≠ some (env.queryPathNarHash t.storePath) := by
    intro hc
    exact hq (Option.some.inj hc).symm
  unfold GitHubInput.fetchTree
  rw [hi]
  simp only [hnone, hinpnar, hne, Option.isSome_some, ite_true, if_pos, ne_eq,
    not_false_iff, true_and]
  split <;> simp [hinpnar, hne]

/-- C1 witness: the amended theorem applied to the concrete `mismatchInput`
(whose expected `sha256-expected` disagrees with the store's `sha256-actual`)
under `sampleEnv`. -/
theorem fetchTree_hash_mismatch_asserts_witness :
    mismatchInput.fetchTree sampleEnv =
      (mismatchEvs, .error (.assertFail "input->narHash == tree.info.narHash")) :=
  fetchTree_hash_mismatch_asserts mismatchInput sampleEnv ⟨"sha256", "expected"⟩
    mismatchEvs ⟨"/dl/path", "storepath1", ⟨none, some 5⟩⟩
    { owner := "alice", repo := "proj", ref := none, rev := some sampleRev,
      narHash := some ⟨"sha256", "expected"⟩ }
    rfl (by decide) (by decide)

/-- C1 counterexample: at the concrete `mismatchInput` under `sampleEnv` the
expected NAR hash disagrees with the fetched tree, yet the call does not fail
with `HashMismatch` (it fails with the internal assertion), and a cache record
keyed by the immutable key for the fetched revision was written by that call. -/
theorem fetchTree_hash_mismatch_counterexample :
    (mismatchInput.fetchTree sampleEnv).2 =
        .error (.assertFail "input->narHash == tree.info.narHash") ∧
    (mismatchInput.fetchTree sampleEnv).2 ≠ .error Err.hashMismatch ∧
    Event.cacheAdd (mkImmutableAttrs sampleRev) (mkInfoAttrs sampleRev 5) "storepath1" true ∈
      (mismatchInput.fetchTree sampleEnv).1 := by
  refine ⟨by decide, by decide, by decide⟩

lemma fetchFromRev_events (self : GitHubInput) (env : FetchEnv) (ma : Attrs) (r : Hash) :
    ∀ e ∈ (self.fetchFromRev env ma r).1,
      e = .cacheLookup (mkImmutableAttrs r) ∨
      e = .download (tarballRequest self.owner self.repo r env) ∨
      (∃ lm sp, e = .cacheAdd ma (mkInfoAttrs r lm) sp false ∧ self.rev = none) ∨
      (∃ lm sp, e = .cacheAdd (mkImmutableAttrs r) (mkInfoAttrs r lm) sp true) := by
  intro e he
  unfold GitHubInput.fetchFromRev at he
  cases hc : env.cache (mkImmutableAttrs r) with
  | some res =>
    simp only [hc] at he
    simp at he
    exact Or.inl he
  | none =>
    simp only [hc] at he
    cases hl : (env.downloadCached (tarballRequest self.owner self.repo r env)).lastModified with
    | none =>
      simp only [hl] at he
      simp at he
      rcases he with he | he
      · exact Or.inl he
      · exact Or.inr (Or.inl he)
    | some lm =>
      simp only [hl] at he
      by_cases hr : self.rev = none
      · simp only [hr, if_pos] at he
        simp at he
        rcases he with he | he | he | he
        · exact Or.inl he
        · exact Or.inr (Or.inl he)
        · exact Or.inr (Or.inr (Or.inl ⟨lm, _, he, hr⟩))
        · exact Or.inr (Or.inr (Or.inr ⟨lm, _, he⟩))
      · simp only [hr, if_neg, if_false] at he
        simp at he
        rcases he with he | he | he
        · exact Or.inl he
        · exact Or.inr (Or.inl he)
        · exact Or.inr (Or.inr (Or.inr ⟨lm, _, he⟩))

lemma fetchTreeInternal_events (self : GitHubInput) (env : FetchEnv) :
    ∀ e ∈ (self.fetchTreeInternal env).1,
      (e = .cacheLookup (mkMutableAttrs self.owner self.repo (self.ref.getD "master")) ∧
        self.rev = none) ∨
      (e = .download (headRequest self.owner self.repo (self.ref.getD "master") env) ∧
        self.rev = none) ∨
      (∃ r, e = .cacheLookup (mkImmutableAttrs r)) ∨
      (∃ r, e = .download (tarballRequest self.owner self.repo r env)) ∨
      (∃ r lm sp,
        e = .cacheAdd (mkMutableAttrs self.owner self.repo (self.ref.getD "master"))
              (mkInfoAttrs r lm) sp false ∧ self.rev = none) ∨
      (∃ r lm sp, e = .cacheAdd (mkImmutableAttrs r) (mkInfoAttrs r lm) sp true) := by
  intro e he
  unfold GitHubInput.fetchTreeInternal at he
  cases hr : self.rev with
  | some r =>
    simp only [hr] at he
    rcases fetchFromRev_events self env _ r e he with h | h | ⟨lm, sp, h, hnone⟩ | ⟨lm, sp, h⟩
    · exact Or.inr (Or.inr (Or.inl ⟨r, h⟩))
    · exact Or.inr (Or.inr (Or.inr (Or.inl ⟨r, h⟩)))
    · rw [hr] at hnone; cases hnone
    · exact Or.inr (Or.inr (Or.inr (Or.inr (Or.inr ⟨r, lm, sp, h⟩))))
  | none =>
    simp only [hr] at he
    cases hc : env.cache (mkMutableAttrs self.owner self.repo (self.ref.getD "master")) with
    | some res =>
      simp only [hc] at he
      simp at he
      exact Or.inl ⟨he, rfl⟩
    | none =>
      simp only [hc] at he
      cases hp : parseSHA1 (env.shaOf (env.downloadCached
          (headRequest self.owner self.repo (self.ref.getD "master") env)).path) with
      | error err =>
        simp only [hp] at he
        simp at he
        rcases he with he | he
        · exact Or.inl ⟨he, rfl⟩
        · exact Or.inr (Or.inl ⟨he, rfl⟩)
      | ok r =>
        simp only [hp] at he
        simp only [List.mem_cons] at he
        rcases he with he | he | he
        · exact Or.inl ⟨he, rfl⟩
        · exact Or.inr (Or.inl ⟨he, rfl⟩)
        · rcases fetchFromRev_events self env _ r e he with h | h | ⟨lm, sp, h, hnone⟩ | ⟨lm, sp, h⟩
          · exact Or.inr (Or.inr (Or.inl ⟨r, h⟩))
          · exact Or.inr (Or.inr (Or.inr (Or.inl ⟨r, h⟩)))
          · exact Or.inr (Or.inr (Or.inr (Or.inr (Or.inl ⟨r, lm, sp, h, rfl⟩))))
          · exact Or.inr (Or.inr (Or.inr (Or.inr (Or.inr ⟨r, lm, sp, h⟩))))

/-- C2 (amended): the immutable-tier cache key used by the github scheme for both
the lookup and the insert is `{type: "git-tarball", rev}` — the literal type tag
`"git-tarball"`, not the scheme's kind `"github"` followed by `"-tarball"`.
Stated as: every `immutable=true` insert and every cache lookup in the trace uses
either the mutable key or `mkImmutableAttrs r` for some revision `r`, and
`mkImmutableAttrs r` carries exactly the keys `rev` and `type` with the type tag
`"git-tarball"`. -/
theorem immutable_key_attrs_shape :
    (∀ (self : GitHubInput) (env : FetchEnv) (ia ifo : Attrs) (sp : String),
       Event.cacheAdd ia ifo sp true ∈ (self.fetchTreeInternal env).1 →
         ∃ r, ia = mkImmutableAttrs r) ∧
    (∀ (self : GitHubInput) (env : FetchEnv) (ia : Attrs),
       Event.cacheLookup ia ∈ (self.fetchTreeInternal env).1 →
         ia = mkMutableAttrs self.owner self.repo (self.ref.getD "master") ∨
         ∃ r, ia = mkImmutableAttrs r) ∧
    (∀ r : Hash,
       lookupAttr (mkImmutableAttrs r) "type" = some (.str "git-tarball") ∧
       lookupAttr (mkImmutableAttrs r) "rev" = some (.str r.gitRev) ∧
       (mkImmutableAttrs r).map Prod.fst = ["rev", "type"]) := by
  refine ⟨?_, ?_, ?_⟩
  · intro self env ia ifo sp hmem
    rcases fetchTreeInternal_events self env _ hmem with
      ⟨he, -⟩ | ⟨he, -⟩ | ⟨r, he⟩ | ⟨r, he⟩ | ⟨r, lm, sp', he, -⟩ | ⟨r, lm, sp', he⟩
    · exact Event.noConfusion he
    · exact Event.noConfusion he
    · exact Event.noConfusion he
    · exact Event.noConfusion he
    · injection he with h1 h2 h3 h4; cases h4
    · injection he with h1 h2 h3 h4; exact ⟨r, h1⟩
  · intro self env ia hmem
    rcases fetchTreeInternal_events self env _ hmem with
      ⟨he, -⟩ | ⟨he, -⟩ | ⟨r, he⟩ | ⟨r, he⟩ | ⟨r, lm, sp', he, -⟩ | ⟨r, lm, sp', he⟩
    · injection he with h1; exact Or.inl h1
    · exact Event.noConfusion he
    · injection he with h1; exact Or.inr ⟨r, h1⟩
    · exact Event.noConfusion he
    · exact Event.noConfusion he
    · exact Event.noConfusion he
  · intro r
    exact ⟨rfl, rfl, rfl⟩

/-- C2 witness: the theorem applied to the concrete rev-pinned fetch of
`sampleInput` under `sampleEnv`, whose trace contains the immutable-key lookup
and the `immutable=true` insert. -/
theorem immutable_key_attrs_shape_witness :
    (∃ r, mkImmutableAttrs sampleRev = mkImmutableAttrs r) ∧
    (mkImmutableAttrs sampleRev =
        mkMutableAttrs sampleInput.owner sampleInput.repo (sampleInput.ref.getD "master") ∨
      ∃ r, mkImmutableAttrs sampleRev = mkImmutableAttrs r) ∧
    lookupAttr (mkImmutableAttrs sampleRev) "type" = some (.str "git-tarball") :=
  ⟨immutable_key_attrs_shape.1 sampleInput sampleEnv (mkImmutableAttrs sampleRev)
      (mkInfoAttrs sampleRev 5) "storepath1" (by decide),
   immutable_key_attrs_shape.2.1 sampleInput sampleEnv (mkImmutableAttrs sampleRev) (by decide),
   (immutable_key_attrs_shape.2.2 sampleRev).1⟩

/-- C2 counterexample: at the concrete rev-pinned fetch of `sampleInput`, the
immutable-tier lookup key carries the type tag `"git-tarball"`, which is not the
scheme's kind followed by `"-tarball"` (`"github-tarball"`), refuting the claim
as stated. -/
theorem immutable_key_attrs_counterexample :
    (sampleInput.fetchTreeInternal sampleEnv).1.head? =
      some (.cacheLookup (mkImmutableAttrs sampleRev)) ∧
    lookupAttr (mkImmutableAttrs sampleRev) "type" = some (.str "git-tarball") ∧
    lookupAttr (mkImmutableAttrs sampleRev) "type" ≠ some (.str ("github" ++ "-tarball")) := by
  refine ⟨by decide, by decide, by decide⟩

lemma fetchFromRev_addT_imp_addF (self : GitHubInput) (env : FetchEnv) (ma : Attrs) (r : Hash)
    (hrev : self.rev = none) (ia ifo : Attrs) (sp : String)
    (hmem : Event.cacheAdd ia ifo sp true ∈ (self.fetchFromRev env ma r).1) :
    ∃ ifo2 sp2, Event.cacheAdd ma ifo2 sp2 false ∈ (self.fetchFromRev env ma r).1 := by
  unfold GitHubInput.fetchFromRev at hmem ⊢
  cases hc : env.cache (mkImmutableAttrs r) with
  | some res =>
    simp only [hc] at hmem
    simp at hmem
  | none =>
    simp only [hc] at hmem ⊢
    cases hl : (env.downloadCached (tarballRequest self.owner self.repo r env)).lastModified with
    | none =>
      simp only [hl] at hmem
      simp at hmem
    | some lm =>
      simp only [hl] at hmem ⊢
      simp only [hrev, if_pos]
      exact ⟨mkInfoAttrs r lm,
        env.parseStorePath (env.downloadCached (tarballRequest self.owner self.repo r env)).storePath,
        by simp⟩

/-- C6: a github fetch whose input already carries a rev performs no
HEAD-resolution request and no mutable-key cache lookup; its trace is exactly
the immutable-key lookup on a hit, and the immutable-key lookup, the tarball
download and the single `immutable=true` insert under the immutable key on a
miss.  Moreover an `immutable=false` (mutable-key) insert occurs only when the
caller did not originally supply a rev, and conversely, on every
insert-performing (download-path) run of a rev-less input, the mutable-key
insert accompanies the immutable one. -/
theorem fetch_by_rev_requests_and_inserts :
    (∀ (self : GitHubInput) (env : FetchEnv) (r : Hash), self.rev = some r →
      (∀ res, env.cache (mkImmutableAttrs r) = some res →
        (self.fetchTreeInternal env).1 = [.cacheLookup (mkImmutableAttrs r)]) ∧
      (env.cache (mkImmutableAttrs r) = none →
        ((env.downloadCached (tarballRequest self.owner self.repo r env)).lastModified = none →
          (self.fetchTreeInternal env).1 =
            [.cacheLookup (mkImmutableAttrs r),
             .download (tarballRequest self.owner self.repo r env)]) ∧
        (∀ lm,
          (env.downloadCached (tarballRequest self.owner self.repo r env)).lastModified = some lm →
          (self.fetchTreeInternal env).1 =
            [.cacheLookup (mkImmutableAttrs r),
             .download (tarballRequest self.owner self.repo r env),
             .cacheAdd (mkImmutableAttrs r) (mkInfoAttrs r lm)
               (env.parseStorePath
                 (env.downloadCached (tarballRequest self.owner self.repo r env)).storePath)
               true]))) ∧
    (∀ (self : GitHubInput) (env : FetchEnv) (ia ifo : Attrs) (sp : String),
      Event.cacheAdd ia ifo sp false ∈ (self.fetchTreeInternal env).1 → self.rev = none) ∧
    (∀ (self : GitHubInput) (env : FetchEnv) (ia ifo : Attrs) (sp : String),
      self.rev = none → Event.cacheAdd ia ifo sp true ∈ (self.fetchTreeInternal env).1 →
      ∃ ifo2 sp2,
        Event.cacheAdd (mkMutableAttrs self.owner self.repo (self.ref.getD "master")) ifo2 sp2 false ∈
          (self.fetchTreeInternal env).1) := by
  refine ⟨?_, ?_, ?_⟩
  · intro self env r hr
    have hunfold : (self.fetchTreeInternal env).1 = (self.fetchFromRev env
        (mkMutableAttrs self.owner self.repo (self.ref.getD "master")) r).1 := by
      unfold GitHubInput.fetchTreeInternal
      rw [hr]
    refine ⟨?_, ?_⟩
    · intro res hc
      rw [hunfold]
      unfold GitHubInput.fetchFromRev
      simp only [hc]
    · intro hc
      refine ⟨?_, ?_⟩
      · intro hl
        rw [hunfold]
        unfold GitHubInput.fetchFromRev
        simp only [hc, hl]
      · intro lm hl
        rw [hunfold]
        unfold GitHubInput.fetchFromRev
        simp only [hc, hl]
        simp [hr]
  · intro self env ia ifo sp hmem
    rcases fetchTreeInternal_events self env _ hmem with
      ⟨he, -⟩ | ⟨he, -⟩ | ⟨r, he⟩ | ⟨r, he⟩ | ⟨r, lm, sp', he, hrev⟩ | ⟨r, lm, sp', he⟩
    · exact Event.noConfusion he
    · exact Event.noConfusion he
    · exact Event.noConfusion he
    · exact Event.noConfusion he
    · exact hrev
    · injection he with h1 h2 h3 h4; cases h4
  · intro self env ia ifo sp hrev hmem
    unfold GitHubInput.fetchTreeInternal at hmem ⊢
    rw [hrev] at hmem ⊢
    cases hc : env.cache (mkMutableAttrs self.owner self.repo (self.ref.getD "master")) with
    | some res =>
      simp only [hc] at hmem
      simp at hmem
    | none =>
      simp only [hc] at hmem ⊢
      cases hp : parseSHA1 (env.shaOf (env.downloadCached
          (headRequest self.owner self.repo (self.ref.getD "master") env)).path) with
      | error err =>
        simp only [hp] at hmem
        simp at hmem
      | ok r =>
        simp only [hp] at hmem ⊢
        simp only [List.mem_cons] at hmem
        rcases hmem with he | he | he
        · exact Event.noConfusion he
        · exact Event.noConfusion he
        · obtain ⟨ifo2, sp2, hmem2⟩ := fetchFromRev_addT_imp_addF self env _ r hrev ia ifo sp he
          exact ⟨ifo2, sp2, by simp only [List.mem_cons]; exact Or.inr (Or.inr hmem2)⟩

/-- C6 witness: the theorem applied to the concrete rev-pinned `sampleInput`
under `sampleEnv` (immutable-tier miss, download path) and, for the
insert-conjuncts, to the rev-less `mismatchInput` whose download-path trace
contains both inserts. -/
theorem fetch_by_rev_requests_and_inserts_witness :
    (mismatchInput.fetchTreeInternal sampleEnv).1 = mismatchEvs ∧
    (sampleInput.fetchTreeInternal sampleEnv).1 =
      [.cacheLookup (mkImmutableAttrs sampleRev),
       .download (tarballRequest "alice" "proj" sampleRev sampleEnv),
       .cacheAdd (mkImmutableAttrs sampleRev) (mkInfoAttrs sampleRev 5) "storepath1" true] ∧
    mismatchInput.rev = none ∧
    (∃ ifo2 sp2,
      Event.cacheAdd (mkMutableAttrs mismatchInput.owner mismatchInput.repo
          (mismatchInput.ref.getD "master")) ifo2 sp2 false ∈
        (mismatchInput.fetchTreeInternal sampleEnv).1) :=
  ⟨by decide,
   by
    have := ((fetch_by_rev_requests_and_inserts.1 sampleInput sampleEnv sampleRev rfl).2
      (by decide)).2 5 (by decide)
    simpa using this,
   fetch_by_rev_requests_and_inserts.2.1 mismatchInput sampleEnv
     (mkMutableAttrs "alice" "proj" "master") (mkInfoAttrs sampleRev 5) "storepath1" (by decide),
   fetch_by_rev_requests_and_inserts.2.2 mismatchInput sampleEnv
     (mkImmutableAttrs sampleRev) (mkInfoAttrs sampleRev 5) "storepath1" rfl (by decide)⟩

/-- C8: every download request issued by the github fetch is either the
HEAD-resolution request, whose TTL is the configured `tarballTtl` (the source's
conditional `rev ? 1000000000 : settings.tarballTtl` runs in a branch where
`rev` is necessarily unset), or a tarball request, whose TTL is the
effectively-infinite constant `1000000000`. -/
theorem download_request_ttls (self : GitHubInput) (env : FetchEnv)
    (req : CachedDownloadRequest)
    (hmem : Event.download req ∈ (self.fetchTreeInternal env).1) :
    (req = headRequest self.owner self.repo (self.ref.getD "master") env ∧
      req.ttl = env.tarballTtl) ∨
    (∃ r, req = tarballRequest self.owner self.repo r env ∧ req.ttl = 1000000000) := by
  rcases fetchTreeInternal_events self env _ hmem with
    ⟨he, -⟩ | ⟨he, -⟩ | ⟨r, he⟩ | ⟨r, he⟩ | ⟨r, lm, sp', he, -⟩ | ⟨r, lm, sp', he⟩
  · exact Event.noConfusion he
  · injection he with h1
    exact Or.inl ⟨h1, by rw [h1]; rfl⟩
  · exact Event.noConfusion he
  · injection he with h1
    exact Or.inr ⟨r, h1, by rw [h1]; rfl⟩
  · exact Event.noConfusion he
  · exact Event.noConfusion he

/-- C8 witness: the theorem applied to the HEAD request present in the concrete
trace of `mismatchInput` under `sampleEnv`. -/
theorem download_request_ttls_witness :
    (headRequest "alice" "proj" "master" sampleEnv =
        headRequest mismatchInput.owner mismatchInput.repo (mismatchInput.ref.getD "master")
          sampleEnv ∧
      (headRequest "alice" "proj" "master" sampleEnv).ttl = sampleEnv.tarballTtl) ∨
    (∃ r, headRequest "alice" "proj" "master" sampleEnv =
        tarballRequest mismatchInput.owner mismatchInput.repo r sampleEnv ∧
      (headRequest "alice" "proj" "master" sampleEnv).ttl = 1000000000) :=
  download_request_ttls mismatchInput sampleEnv
    (headRequest "alice" "proj" "master" sampleEnv) (by decide)

/-- C9: a github input with both `ref` and `rev` set is constructible through the
public interface — `inputFromAttrs` accepts attrs carrying both, and
`applyOverrides` sets `rev` without clearing an existing `ref` — yet for every
such input `to_string` fails its internal assertion `!(ref && rev)` instead of
returning a canonical URL; `to_string` succeeds exactly on the inputs where
`ref` and `rev` are not both set. -/
theorem to_string_asserts_on_ref_and_rev :
    (∃ attrs i, inputFromAttrs (registerInputScheme none .github) attrs = .ok i ∧
      i.ref.isSome = true ∧ i.rev.isSome = true) ∧
    (∀ (i : GitHubInput) (b : String) (h : Hash), i.ref = some b →
      (i.applyOverrides none (some h)).ref = some b ∧
      (i.applyOverrides none (some h)).rev = some h) ∧
    (∀ i : GitHubInput, i.ref.isSome = true → i.rev.isSome = true →
      ∃ m, i.to_string = .error (.assertFail m)) ∧
    (∀ i : GitHubInput, ¬(i.ref.isSome = true ∧ i.rev.isSome = true) →
      ∃ s, i.to_string = .ok s) := by
  refine ⟨⟨bothRefRev.toAttrs, bothRefRev, by decide, rfl, rfl⟩, ?_, ?_, ?_⟩
  · intro i b h href
    unfold GitHubInput.applyOverrides
    simp only [href]
    refine ⟨by simp, by simp⟩
  · intro i h1 h2
    refine ⟨"!(ref && rev)", ?_⟩
    unfold GitHubInput.to_string
    rw [if_pos ⟨h1, h2⟩]
  · intro i hno
    unfold GitHubInput.to_string
    rw [if_neg hno]
    exact ⟨_, rfl⟩

/-- C9 witness: the theorem's parts applied at concrete inputs, one carrying
both a ref and a rev and one carrying only a ref. -/
theorem to_string_asserts_on_ref_and_rev_witness :
    ((refOnly.applyOverrides none (some sampleRev)).ref = some "main" ∧
      (refOnly.applyOverrides none (some sampleRev)).rev = some sampleRev) ∧
    (∃ m, bothRefRev.to_string = .error (.assertFail m)) ∧
    (∃ s, refOnly.to_string = .ok s) :=
  ⟨to_string_asserts_on_ref_and_rev.2.1 refOnly "main" sampleRev rfl,
   to_string_asserts_on_ref_and_rev.2.2.1 bothRefRev rfl rfl,
   to_string_asserts_on_ref_and_rev.2.2.2 refOnly (by decide)⟩

lemma err_ne_unsupported_of {α β : Type} (x : Except Err α) (e : Err)
    (hx : x = .error e) (hne : x ≠ .error .unsupportedInput) :
    (Except.error e : Except Err β) ≠ .error .unsupportedInput := by
  intro hc
  apply hne
  rw [hx]
  injection hc with h
  rw [h]

lemma parseSHA1_not_unsupported (s : String) :
    parseSHA1 s ≠ .error .unsupportedInput := by
  unfold parseSHA1
  split <;> simp

lemma queryStep_not_unsupported (name value : String) (rev : Option Hash)
    (ref : Option String) :
    queryStep name value rev ref ≠ .error .unsupportedInput := by
  unfold queryStep
  split
  · cases rev with
    | some r => simp
    | none =>
      cases hp : parseSHA1 value with
      | error e => exact err_ne_unsupported_of _ e hp (parseSHA1_not_unsupported value)
      | ok h => simp
  · split
    · split
      · simp
      · cases ref with
        | some b => simp
        | none => simp
    · simp

lemma processQuery_not_unsupported (q : List (String × String)) :
    ∀ (rev : Option Hash) (ref : Option String),
      processQuery q rev ref ≠ .error .unsupportedInput := by
  induction q with
  | nil => intro rev ref; simp [processQuery]
  | cons p rest ih =>
    intro rev ref
    obtain ⟨name, value⟩ := p
    unfold processQuery
    cases hs : queryStep name value rev ref with
    | error e => exact err_ne_unsupported_of _ e hs (queryStep_not_unsupported name value rev ref)
    | ok p2 =>
      obtain ⟨rev2, ref2⟩ := p2
      exact ih rev2 ref2

lemma classifyPath_not_unsupported (path : List String) :
    classifyPath path ≠ .error .unsupportedInput := by
  unfold classifyPath
  split
  · simp
  · split
    · split
      · cases hp : parseSHA1 (path.getD 2 "") with
        | error e => exact err_ne_unsupported_of _ e hp (parseSHA1_not_unsupported _)
        | ok h => simp
      · split <;> simp
    · simp

lemma github_fromURL_not_unsupported (url : ParsedURL) :
    GitHubInputScheme.inputFromURL url ≠ .error .unsupportedInput := by
  unfold GitHubInputScheme.inputFromURL
  split
  · simp
  · cases hcl : classifyPath (tokenizeString url.path) with
    | error e =>
      simp only [hcl]
      exact err_ne_unsupported_of _ e hcl (classifyPath_not_unsupported _)
    | ok p =>
      obtain ⟨rev0, ref0⟩ := p
      simp only [hcl]
      cases hpq : processQuery url.query rev0 ref0 with
      | error e =>
        simp only [hpq]
        exact err_ne_unsupported_of _ e hpq (processQuery_not_unsupported url.query rev0 ref0)
      | ok p2 =>
        obtain ⟨rev, ref⟩ := p2
        simp only [hpq]
        split <;> simp

lemma github_fromAttrs_not_unsupported (attrs : Attrs) :
    GitHubInputScheme.inputFromAttrs attrs ≠ .error .unsupportedInput := by
  unfold GitHubInputScheme.inputFromAttrs
  split
  · simp
  · split
    · simp
    · cases ho : getStrAttr attrs "owner" with
      | error e =>
        simp only [ho]
        refine err_ne_unsupported_of _ e ho ?_
        unfold getStrAttr
        split <;> simp
      | ok owner =>
        simp only [ho]
        cases hr : getStrAttr attrs "repo" with
        | error e =>
          simp only [hr]
          refine err_ne_unsupported_of _ e hr ?_
          unfold getStrAttr
          split <;> simp
        | ok repo =>
          simp only [hr]
          split
          · cases hp : parseSHA1 _ with
            | error e =>
              simp only [hp]
              exact err_ne_unsupported_of _ e hp (parseSHA1_not_unsupported _)
            | ok h => simp [hp]
          · simp

lemma inputFromURLList_unsupported (l : List Scheme) (url : ParsedURL)
    (h : inputFromURLList l url = .error .unsupportedInput) :
    ∀ s ∈ l, s.fromURL url = .ok none := by
  induction l with
  | nil => intro s hs; cases hs
  | cons s0 rest ih =>
    unfold inputFromURLList at h
    cases hf : s0.fromURL url with
    | error e =>
      rw [hf] at h
      injection h with he
      subst he
      cases s0
      exact absurd hf (github_fromURL_not_unsupported url)
    | ok o =>
      rw [hf] at h
      cases o with
      | some i => exact absurd h (by simp)
      | none =>
        intro s hs
        cases hs with
        | head => exact hf
        | tail _ htail => exact ih h s htail

lemma inputFromAttrsList_unsupported (l : List Scheme) (attrs : Attrs)
    (h : inputFromAttrsList l attrs = .error .unsupportedInput) :
    ∀ s ∈ l, s.fromAttrs attrs = .ok none := by
  induction l with
  | nil => intro s hs; cases hs
  | cons s0 rest ih =>
    unfold inputFromAttrsList at h
    cases hf : s0.fromAttrs attrs with
    | error e =>
      rw [hf] at h
      injection h with he
      subst he
      cases s0
      exact absurd hf (github_fromAttrs_not_unsupported attrs)
    | ok o =>
      rw [hf] at h
      cases o with
      | some i => exact absurd h (by simp)
      | none =>
        intro s hs
        cases hs with
        | head => exact hf
        | tail _ htail => exact ih h s htail

/-- C10: before any registration the scheme-list pointer is null and both
dispatch functions dereference it — modelled by the distinguished `nullDeref`
outcome, distinct from the unsupported-input error — while `registerInputScheme`
always leaves a non-null list, and once a list exists both functions raise the
unsupported-input error only when every registered scheme declines. -/
theorem registry_null_deref_and_dispatch :
    (∀ url, inputFromURL none url = .error .nullDeref) ∧
    (∀ attrs, inputFromAttrs none attrs = .error .nullDeref) ∧
    (Err.nullDeref ≠ Err.unsupportedInput) ∧
    (∀ (st : Registry) (s : Scheme), (registerInputScheme st s).isSome = true) ∧
    (∀ (l : List Scheme) (url : ParsedURL),
      inputFromURL (some l) url = .error .unsupportedInput →
      ∀ s ∈ l, s.fromURL url = .ok none) ∧
    (∀ (l : List Scheme) (attrs : Attrs),
      inputFromAttrs (some l) attrs = .error .unsupportedInput →
      ∀ s ∈ l, s.fromAttrs attrs = .ok none) := by
  refine ⟨fun _ => rfl, fun _ => rfl, by decide, fun _ _ => rfl, ?_, ?_⟩
  · intro l url h
    exact inputFromURLList_unsupported l url h
  · intro l attrs h
    refine inputFromAttrsList_unsupported l attrs ?_
    unfold inputFromAttrs at h
    cases hl : inputFromAttrsList l attrs with
    | error e =>
      simp only [hl] at h
      injection h with he
      rw [he]
    | ok i =>
      simp only [hl] at h
      cases hm : maybeGetStrAttr attrs "narHash" with
      | none => simp [hm] at h
      | some nh =>
        simp only [hm] at h
        cases hph : parseHashAny nh with
        | error e =>
          simp only [hph] at h
          injection h with he
          subst he
          exfalso
          revert hph
          unfold parseHashAny
          split
          · split
            · intro hc; cases hc
            · intro hc; injection hc with hc2; cases hc2
          · intro hc; injection hc with hc2; cases hc2
        | ok h2 => simp [hph] at h

/-- C10 witness: the theorem's parts applied concretely — a null registry, one
registration, and a URL and attrs declined by the sole registered scheme. -/
theorem registry_null_deref_and_dispatch_witness :
    inputFromURL none ⟨"git", "a/b", []⟩ = .error .nullDeref ∧
    (registerInputScheme none .github).isSome = true ∧
    Scheme.github.fromURL ⟨"git", "a/b", []⟩ = .ok none ∧
    Scheme.github.fromAttrs [("type", .str "git")] = .ok none :=
  ⟨registry_null_deref_and_dispatch.1 ⟨"git", "a/b", []⟩,
   registry_null_deref_and_dispatch.2.2.2.1 none .github,
   registry_null_deref_and_dispatch.2.2.2.2.1 [.github] ⟨"git", "a/b", []⟩ (by decide)
     .github (by simp),
   registry_null_deref_and_dispatch.2.2.2.2.2 [.github] [("type", .str "git")] (by decide)
     .github (by simp)⟩

lemma optCount_le_one {α : Type} (o : Option α) : optCount o ≤ 1 := by
  cases o <;> simp [optCount]

lemma optCount_none {α : Type} : optCount (none : Option α) = 0 := rfl

lemma optCount_some {α : Type} (a : α) : optCount (some a) = 1 := rfl

lemma countKey_cons_self (k v : String) (rest : List (String × String)) :
    countKey ((k, v) :: rest) k = countKey rest k + 1 := by
  simp [countKey, List.filter_cons]

lemma countKey_cons_ne (n v k : String) (rest : List (String × String)) (h : n ≠ k) :
    countKey ((n, v) :: rest) k = countKey rest k := by
  simp [countKey, List.filter_cons, h]

lemma revValsValid_cons (n v : String) (rest : List (String × String))
    (h : revValsValid ((n, v) :: rest) = true) :
    (n = "rev" → sha1Valid v = true) ∧ revValsValid rest = true := by
  simp only [revValsValid, List.all_cons, Bool.and_eq_true] at h
  obtain ⟨h1, h2⟩ := h
  refine ⟨?_, h2⟩
  intro hn
  subst hn
  simpa using h1

lemma refValsValid_cons (n v : String) (rest : List (String × String))
    (h : refValsValid ((n, v) :: rest) = true) :
    (n = "ref" → refRegexMatch v = true) ∧ refValsValid rest = true := by
  simp only [refValsValid, List.all_cons, Bool.and_eq_true] at h
  obtain ⟨h1, h2⟩ := h
  refine ⟨?_, h2⟩
  intro hn
  subst hn
  simpa using h1

lemma queryStep_error_badURL (n v : String) (rev0 : Option Hash) (ref0 : Option String)
    (e : Err) (hv : n = "rev" → sha1Valid v = true)
    (h : queryStep n v rev0 ref0 = .error e) : ∃ m, e = .badURL m := by
  unfold queryStep at h
  split at h
  · next hn =>
    cases rev0 with
    | some r => injection h with he; exact ⟨_, he.symm⟩
    | none =>
      unfold parseSHA1 at h
      rw [if_pos (hv hn)] at h
      cases h
  · split at h
    · split at h
      · injection h with he; exact ⟨_, he.symm⟩
      · cases ref0 with
        | some b => injection h with he; exact ⟨_, he.symm⟩
        | none => cases h
    · cases h

lemma queryStep_ok_shape (n v : String) (rev0 : Option Hash) (ref0 : Option String)
    (rev2 : Option Hash) (ref2 : Option String)
    (h : queryStep n v rev0 ref0 = .ok (rev2, ref2)) :
    (n = "rev" ∧ rev0 = none ∧ (∃ hh, rev2 = some hh) ∧ ref2 = ref0) ∨
    (n ≠ "rev" ∧ n = "ref" ∧ ref0 = none ∧ ref2 = some v ∧ rev2 = rev0) ∨
    (n ≠ "rev" ∧ n ≠ "ref" ∧ rev2 = rev0 ∧ ref2 = ref0) := by
  unfold queryStep at h
  split at h
  · next hn =>
    cases rev0 with
    | some r => cases h
    | none =>
      cases hp : parseSHA1 v with
      | error e => rw [hp] at h; cases h
      | ok hh =>
        rw [hp] at h
        injection h with h'
        injection h' with h1 h2
        exact Or.inl ⟨hn, rfl, ⟨hh, h1.symm⟩, h2.symm⟩
  · next hn =>
    split at h
    · next hf =>
      split at h
      · cases h
      · cases ref0 with
        | some b => cases h
        | none =>
          injection h with h'
          injection h' with h1 h2
          exact Or.inr (Or.inl ⟨hn, hf, rfl, h2.symm, h1.symm⟩)
    · next hf =>
      injection h with h'
      injection h' with h1 h2
      exact Or.inr (Or.inr ⟨hn, hf, h1.symm, h2.symm⟩)

lemma processQuery_error_badURL : ∀ (q : List (String × String)) (rev0 : Option Hash)
    (ref0 : Option String) (e : Err), revValsValid q = true →
    processQuery q rev0 ref0 = .error e → ∃ m, e = .badURL m := by
  intro q
  induction q with
  | nil => intro rev0 ref0 e _ h; cases h
  | cons p rest ih =>
    intro rev0 ref0 e hvalid h
    obtain ⟨n, v⟩ := p
    obtain ⟨hv, hrest⟩ := revValsValid_cons n v rest hvalid
    unfold processQuery at h
    cases hs : queryStep n v rev0 ref0 with
    | error e' =>
      rw [hs] at h
      injection h with he
      subst he
      exact queryStep_error_badURL n v rev0 ref0 _ hv hs
    | ok p2 =>
      obtain ⟨rev2, ref2⟩ := p2
      rw [hs] at h
      exact ih rev2 ref2 e hrest h

lemma processQuery_ok_counts : ∀ (q : List (String × String)) (rev0 : Option Hash)
    (ref0 : Option String) (rv : Option Hash) (rf : Option String),
    processQuery q rev0 ref0 = .ok (rv, rf) →
    optCount rv = countKey q "rev" + optCount rev0 ∧
    optCount rf = countKey q "ref" + optCount ref0 := by
  intro q
  induction q with
  | nil =>
    intro rev0 ref0 rv rf h
    injection h with h'
    injection h' with h1 h2
    rw [← h1, ← h2]
    simp [countKey]
  | cons p rest ih =>
    intro rev0 ref0 rv rf h
    obtain ⟨n, v⟩ := p
    unfold processQuery at h
    cases hs : queryStep n v rev0 ref0 with
    | error e => rw [hs] at h; cases h
    | ok p2 =>
      obtain ⟨rev2, ref2⟩ := p2
      rw [hs] at h
      obtain ⟨hC, hD⟩ := ih rev2 ref2 rv rf h
      rcases queryStep_ok_shape n v rev0 ref0 rev2 ref2 hs with
        ⟨hn, hr0, ⟨hh, hr2⟩, hf2⟩ | ⟨hn, hf, hf0, hf2, hr2⟩ | ⟨hn, hf, hr2, hf2⟩
      · subst hn hr0 hr2 hf2
        rw [countKey_cons_self, countKey_cons_ne _ _ _ _ (by decide)]
        simp only [optCount_none, optCount_some] at hC ⊢
        omega
      · subst hf hf0 hf2 hr2
        rw [countKey_cons_self, countKey_cons_ne _ _ _ _ hn]
        simp only [optCount_none, optCount_some] at hD ⊢
        omega
      · subst hr2 hf2
        rw [countKey_cons_ne _ _ _ _ hn, countKey_cons_ne _ _ _ _ hf]
        omega

lemma processQuery_ok_of_valid : ∀ (q : List (String × String)) (rev0 : Option Hash)
    (ref0 : Option String), revValsValid q = true → refValsValid q = true →
    countKey q "rev" + optCount rev0 ≤ 1 → countKey q "ref" + optCount ref0 ≤ 1 →
    ∃ rv rf, processQuery q rev0 ref0 = .ok (rv, rf) := by
  intro q
  induction q with
  | nil => intro rev0 ref0 _ _ _ _; exact ⟨rev0, ref0, rfl⟩
  | cons p rest ih =>
    intro rev0 ref0 hrev href hcr hcf
    obtain ⟨n, v⟩ := p
    obtain ⟨hv1, hrest1⟩ := revValsValid_cons n v rest hrev
    obtain ⟨hv2, hrest2⟩ := refValsValid_cons n v rest href
    by_cases hn : n = "rev"
    · subst hn
      rw [countKey_cons_self] at hcr
      rw [countKey_cons_ne _ _ _ _ (by decide)] at hcf
      cases rev0 with
      | some r => exfalso; simp only [optCount_some] at hcr; omega
      | none =>
        have hv : sha1Valid v = true := hv1 rfl
        have hq : queryStep "rev" v none ref0 =
            .ok (some ⟨"sha1", ⟨v.data.map Char.toLower⟩⟩, ref0) := by
          unfold queryStep parseSHA1
          rw [if_pos rfl, if_pos hv]
        have hA : countKey rest "rev" +
            optCount (some (⟨"sha1", ⟨v.data.map Char.toLower⟩⟩ : Hash)) ≤ 1 := by
          simp only [optCount_none, optCount_some] at hcr ⊢
          omega
        obtain ⟨rv, rf, hok⟩ := ih (some ⟨"sha1", ⟨v.data.map Char.toLower⟩⟩) ref0
          hrest1 hrest2 hA hcf
        refine ⟨rv, rf, ?_⟩
        unfold processQuery
        rw [hq]
        exact hok
    · by_cases hf : n = "ref"
      · subst hf
        rw [countKey_cons_self] at hcf
        rw [countKey_cons_ne _ _ _ _ hn] at hcr
        cases ref0 with
        | some b => exfalso; simp only [optCount_some] at hcf; omega
        | none =>
          have hrm : refRegexMatch v = true := hv2 rfl
          have hq : queryStep "ref" v rev0 none = .ok (rev0, some v) := by
            unfold queryStep
            rw [if_neg hn, if_pos rfl, if_neg (by simp [hrm])]
          have hB : countKey rest "ref" + optCount (some v) ≤ 1 := by
            simp only [optCount_none, optCount_some] at hcf ⊢
            omega
          obtain ⟨rv, rf, hok⟩ := ih rev0 (some v) hrest1 hrest2 hcr hB
          refine ⟨rv, rf, ?_⟩
          unfold processQuery
          rw [hq]
          exact hok
      · have hq : queryStep n v rev0 ref0 = .ok (rev0, ref0) := by
          unfold queryStep
          rw [if_neg hn, if_neg hf]
        rw [countKey_cons_ne _ _ _ _ hn] at hcr
        rw [countKey_cons_ne _ _ _ _ hf] at hcf
        obtain ⟨rv, rf, hok⟩ := ih rev0 ref0 hrest1 hrest2 hcr hcf
        refine ⟨rv, rf, ?_⟩
        unfold processQuery
        rw [hq]
        exact hok

lemma classifyPath_cases (path : List String) :
    (∃ m, classifyPath path = .error (.badURL m)) ∨
    (∃ rev0 ref0, classifyPath path = .ok (rev0, ref0)) := by
  unfold classifyPath
  split
  · exact Or.inr ⟨none, none, rfl⟩
  · split
    · split
      · next hrev =>
        cases hp : parseSHA1 (path.getD 2 "") with
        | error e =>
          have hv : sha1Valid (path.getD 2 "") = true := hrev
          unfold parseSHA1 at hp
          rw [if_pos hv] at hp
          cases hp
        | ok hh => exact Or.inr ⟨some hh, none, rfl⟩
      · split
        · exact Or.inr ⟨none, some _, rfl⟩
        · exact Or.inl ⟨_, rfl⟩
    · exact Or.inl ⟨_, rfl⟩

lemma classifyPath_pair (o rp : String) : classifyPath [o, rp] = .ok (none, none) := rfl

lemma classifyPath_revSeg (o rp seg : String) (hseg : revRegexMatch seg = true) :
    classifyPath [o, rp, seg] = .ok (some ⟨"sha1", ⟨seg.data.map Char.toLower⟩⟩, none) := by
  have hv : sha1Valid seg = true := hseg
  have h2 : ¬(([o, rp, seg] : List String).length = 2) := by simp
  have h3 : ([o, rp, seg] : List String).length = 3 := rfl
  unfold classifyPath parseSHA1
  rw [if_neg h2, if_pos h3]
  simp only [show ([o, rp, seg] : List String).getD 2 "" = seg from rfl]
  rw [if_pos hseg, if_pos hv]

lemma classifyPath_refSeg (o rp seg : String) (hrev : revRegexMatch seg = false)
    (href : refRegexMatch seg = true) :
    classifyPath [o, rp, seg] = .ok (none, some seg) := by
  have h2 : ¬(([o, rp, seg] : List String).length = 2) := by simp
  have h3 : ([o, rp, seg] : List String).length = 3 := rfl
  unfold classifyPath
  rw [if_neg h2, if_pos h3]
  simp only [show ([o, rp, seg] : List String).getD 2 "" = seg from rfl]
  rw [if_neg (by simp [hrev]), if_pos href]

/-- C7: the github URL parser rejects with `BadURL` every URL in which both a
ref and a rev end up specified (from the path segment, the query parameters, or
one of each) and every URL whose `rev` or `ref` query parameter appears more
than once, while a URL specifying at most one of ref and rev at most once (with
well-formed values, so that no other error kind intervenes) is accepted. -/
theorem ref_rev_exclusivity :
    (∀ url : ParsedURL, url.scheme = "github" → revValsValid url.query = true →
      (2 ≤ countKey url.query "rev" ∨ 2 ≤ countKey url.query "ref") →
      ∃ m, GitHubInputScheme.inputFromURL url = .error (.badURL m)) ∧
    (∀ url : ParsedURL, url.scheme = "github" → revValsValid url.query = true →
      ((∃ o rp, tokenizeString url.path = [o, rp] ∧
          1 ≤ countKey url.query "rev" ∧ 1 ≤ countKey url.query "ref") ∨
       (∃ o rp seg, tokenizeString url.path = [o, rp, seg] ∧ revRegexMatch seg = true ∧
          1 ≤ countKey url.query "ref") ∨
       (∃ o rp seg, tokenizeString url.path = [o, rp, seg] ∧ revRegexMatch seg = false ∧
          refRegexMatch seg = true ∧ 1 ≤ countKey url.query "rev")) →
      ∃ m, GitHubInputScheme.inputFromURL url = .error (.badURL m)) ∧
    (∀ url : ParsedURL, url.scheme = "github" → revValsValid url.query = true →
      refValsValid url.query = true →
      ((∃ o rp, tokenizeString url.path = [o, rp] ∧
          countKey url.query "rev" + countKey url.query "ref" ≤ 1) ∨
       (∃ o rp seg, tokenizeString url.path = [o, rp, seg] ∧
          (revRegexMatch seg = true ∨
            (revRegexMatch seg = false ∧ refRegexMatch seg = true)) ∧
          countKey url.query "rev" = 0 ∧ countKey url.query "ref" = 0)) →
      ∃ i, GitHubInputScheme.inputFromURL url = .ok (some i)) := by
  refine ⟨?_, ?_, ?_⟩
  · intro url hscheme hvalid hdup
    unfold GitHubInputScheme.inputFromURL
    rw [if_neg (by simp [hscheme])]
    rcases classifyPath_cases (tokenizeString url.path) with ⟨m, hcl⟩ | ⟨rev0, ref0, hcl⟩
    · exact ⟨m, by simp only [hcl]⟩
    · cases hpq : processQuery url.query rev0 ref0 with
      | error e =>
        obtain ⟨m, hm⟩ := processQuery_error_badURL url.query rev0 ref0 e hvalid hpq
        exact ⟨m, by simp only [hcl, hpq, hm]⟩
      | ok p =>
        obtain ⟨rv, rf⟩ := p
        obtain ⟨h1, h2⟩ := processQuery_ok_counts url.query rev0 ref0 rv rf hpq
        exfalso
        have hrv := optCount_le_one rv
        have hrf := optCount_le_one rf
        rcases hdup with hd | hd <;> omega
  · intro url hscheme hvalid hcase
    unfold GitHubInputScheme.inputFromURL
    rw [if_neg (by simp [hscheme])]
    obtain ⟨rev0, ref0, hcl, hcnt1, hcnt2⟩ :
        ∃ rev0 ref0, classifyPath (tokenizeString url.path) = .ok (rev0, ref0) ∧
          1 ≤ countKey url.query "rev" + optCount rev0 ∧
          1 ≤ countKey url.query "ref" + optCount ref0 := by
      rcases hcase with ⟨o, rp, htok, hr, hf⟩ | ⟨o, rp, seg, htok, hseg, hf⟩ |
        ⟨o, rp, seg, htok, hrev, href, hr⟩
      · refine ⟨none, none, ?_, ?_, ?_⟩
        · rw [htok]; exact classifyPath_pair o rp
        · simp only [optCount_none, optCount_some]; omega
        · simp only [optCount_none, optCount_some]; omega
      · refine ⟨some ⟨"sha1", ⟨seg.data.map Char.toLower⟩⟩, none, ?_, ?_, ?_⟩
        · rw [htok]; exact classifyPath_revSeg o rp seg hseg
        · simp only [optCount_none, optCount_some]; omega
        · simp only [optCount_none, optCount_some]; omega
      · refine ⟨none, some seg, ?_, ?_, ?_⟩
        · rw [htok]; exact classifyPath_refSeg o rp seg hrev href
        · simp only [optCount_none, optCount_some]; omega
        · simp only [optCount_none, optCount_some]; omega
    cases hpq : processQuery url.query rev0 ref0 with
    | error e =>
      obtain ⟨m, hm⟩ := processQuery_error_badURL url.query rev0 ref0 e hvalid hpq
      exact ⟨m, by simp only [hcl, hpq, hm]⟩
    | ok p =>
      obtain ⟨rv, rf⟩ := p
      obtain ⟨h1, h2⟩ := processQuery_ok_counts url.query rev0 ref0 rv rf hpq
      have hrv : rv.isSome = true := by
        cases rv with
        | none => exfalso; simp only [optCount_none] at h1; omega
        | some x => rfl
      have hrf : rf.isSome = true := by
        cases rf with
        | none => exfalso; simp only [optCount_none] at h2; omega
        | some x => rfl
      exact ⟨_, by simp only [hcl, hpq]; rw [if_pos ⟨hrf, hrv⟩]⟩
  · intro url hscheme hrevv hrefv hcase
    unfold GitHubInputScheme.inputFromURL
    rw [if_neg (by simp [hscheme])]
    obtain ⟨rev0, ref0, hcl, hA, hB, hC⟩ :
        ∃ rev0 ref0, classifyPath (tokenizeString url.path) = .ok (rev0, ref0) ∧
          countKey url.query "rev" + optCount rev0 ≤ 1 ∧
          countKey url.query "ref" + optCount ref0 ≤ 1 ∧
          (countKey url.query "rev" + optCount rev0) +
            (countKey url.query "ref" + optCount ref0) ≤ 1 := by
      rcases hcase with ⟨o, rp, htok, hsum⟩ | ⟨o, rp, seg, htok, hseg, hr0, hf0⟩
      · refine ⟨none, none, ?_, ?_, ?_, ?_⟩
        · rw [htok]; exact classifyPath_pair o rp
        · simp only [optCount_none, optCount_some]; omega
        · simp only [optCount_none, optCount_some]; omega
        · simp only [optCount_none, optCount_some]; omega
      · rcases hseg with hseg | ⟨hrev, href⟩
        · refine ⟨some ⟨"sha1", ⟨seg.data.map Char.toLower⟩⟩, none, ?_, ?_, ?_, ?_⟩
          · rw [htok]; exact classifyPath_revSeg o rp seg hseg
          · simp only [optCount_none, optCount_some]; omega
          · simp only [optCount_none, optCount_some]; omega
          · simp only [optCount_none, optCount_some]; omega
        · refine ⟨none, some seg, ?_, ?_, ?_, ?_⟩
          · rw [htok]; exact classifyPath_refSeg o rp seg hrev href
          · simp only [optCount_none, optCount_some]; omega
          · simp only [optCount_none, optCount_some]; omega
          · simp only [optCount_none, optCount_some]; omega
    obtain ⟨rv, rf, hpq⟩ := processQuery_ok_of_valid url.query rev0 ref0 hrevv hrefv hA hB
    obtain ⟨h1, h2⟩ := processQuery_ok_counts url.query rev0 ref0 rv rf hpq
    have hnotboth : ¬(rf.isSome = true ∧ rv.isSome = true) := by
      rintro ⟨hf, hv⟩
      cases rv with
      | none => cases hv
      | some x =>
        cases rf with
        | none => cases hf
        | some y =>
          simp only [optCount_some] at h1 h2
          omega
    exact ⟨_, by simp only [hcl, hpq]; rw [if_neg hnotboth]⟩

/-- C7 witness: the theorem's parts applied at concrete URLs — a duplicated
`rev` query parameter, a path ref combined with a query rev, and an accepted URL
carrying a single `ref` parameter. -/
theorem ref_rev_exclusivity_witness :
    (∃ m, GitHubInputScheme.inputFromURL
        ⟨"github", "alice/proj", [("rev", sampleHex), ("rev", sampleHex)]⟩ =
      .error (.badURL m)) ∧
    (∃ m, GitHubInputScheme.inputFromURL
        ⟨"github", "alice/proj/main", [("rev", sampleHex)]⟩ = .error (.badURL m)) ∧
    (∃ i, GitHubInputScheme.inputFromURL
        ⟨"github", "alice/proj", [("ref", "main")]⟩ = .ok (some i)) :=
  ⟨ref_rev_exclusivity.1 _ rfl (by decide) (Or.inl (by decide)),
   ref_rev_exclusivity.2.1 _ rfl (by decide)
     (Or.inr (Or.inr ⟨"alice", "proj", "main", by decide, by decide, by decide, by decide⟩)),
   ref_rev_exclusivity.2.2 _ rfl (by decide) (by decide)
     (Or.inl ⟨"alice", "proj", by decide, by decide⟩)⟩

end Fetchers
